import Mathlib

/-!
# Verification of the D7024E Kademlia node engine

A shallow embedding, in Lean 4, of the Kademlia DHT node implemented in
`labs/kademlia` (Go).  Pure data and algorithms are translated directly from
the Go source files (`kademliaid.go`, `bucket.go`, `routingtable.go`,
`kademlia.go`, `network.go`, `wire.go`, `cli.go`); network interaction is
modelled by explicit oracles (environments) supplying the responses that the
UDP transport would deliver, and by explicit traces of the messages a call
dispatches.  Machine integers are modelled as `Nat` with reductions modulo
`2 ^ 32` (words) and `256` (bytes) exactly where the Go code relies on
fixed-width arithmetic.
-/

set_option maxRecDepth 100000

namespace Kademlia

/-! ## ID algebra (`kademliaid.go`)

A `KademliaID` is a 20-byte identifier; we model the bytes as a list of
naturals (each `< 256` for any value that the Go program can construct).
-/

/-- `IDLength` from `kademliaid.go`: number of bytes in a `KademliaID`. -/
def IDLength : Nat := 20

/-- A 160-bit identifier, as its list of 20 bytes (big-endian order). -/
abbrev KademliaID := List Nat

/-- A well-formed ID: exactly `IDLength` bytes, each a byte value. -/
def ValidId (id : KademliaID) : Prop :=
  id.length = IDLength ∧ ∀ b ∈ id, b < 256

instance : DecidablePred ValidId := fun id => by
  unfold ValidId; infer_instance

/-- `KademliaID.CalcDistance`: byte-wise XOR of the two identifiers. -/
def calcDistance (a b : KademliaID) : KademliaID :=
  List.zipWith Nat.xor a b

/-- `KademliaID.Less`: lexicographic byte comparison (big-endian numeric
order for equal-length ids). -/
def idLess : KademliaID → KademliaID → Bool
  | a :: as, b :: bs =>
      if a < b then true
      else if b < a then false
      else idLess as bs
  | _, _ => false

/-- `KademliaID.Equals`: byte-wise equality. -/
def idEquals : KademliaID → KademliaID → Bool
  | a :: as, b :: bs => a == b && idEquals as bs
  | [], [] => true
  | _, _ => false

/-- Interpret an ID as an unsigned big-endian integer (used only in proofs:
the Go code compares distances with `Less`, which agrees with this numeric
order on equal-length ids). -/
def idToNat : KademliaID → Nat
  | [] => 0
  | b :: rest => b * 256 ^ rest.length + idToNat rest

theorem idEquals_eq_true_iff : ∀ a b : KademliaID, idEquals a b = true ↔ a = b := by
  intro a
  induction a with
  | nil => intro b; cases b <;> simp [idEquals]
  | cons x xs ih =>
      intro b
      cases b with
      | nil => simp [idEquals]
      | cons y ys => simp [idEquals, ih]

theorem idEquals_comm (a b : KademliaID) : idEquals a b = idEquals b a := by
  by_cases h : a = b
  · subst h; rfl
  · have h1 : idEquals a b ≠ true := fun hc => h ((idEquals_eq_true_iff a b).mp hc)
    have h2 : idEquals b a ≠ true := fun hc => h ((idEquals_eq_true_iff b a).mp hc).symm
    simp only [Bool.not_eq_true] at h1 h2
    rw [h1, h2]

theorem idEquals_self (a : KademliaID) : idEquals a a = true :=
  (idEquals_eq_true_iff a a).mpr rfl

/-! ## Hex encoding and decoding (`encoding/hex`) -/

/-- One lowercase hex digit, as in Go's `hextable = "0123456789abcdef"`. -/
def hexDigitChar (n : Nat) : Char :=
  if n < 10 then Char.ofNat (48 + n) else Char.ofNat (87 + n)

/-- `hex.EncodeToString`: two lowercase hex digits per byte. -/
def hexEncode (bytes : List Nat) : String :=
  String.mk (bytes.flatMap fun b => [hexDigitChar ((b >>> 4) % 16), hexDigitChar (b % 16)])

/-- Value of one hex digit; Go's decoder accepts both cases. -/
def hexCharVal (c : Char) : Option Nat :=
  if '0' ≤ c ∧ c ≤ '9' then some (c.toNat - 48)
  else if 'a' ≤ c ∧ c ≤ 'f' then some (c.toNat - 87)
  else if 'A' ≤ c ∧ c ≤ 'F' then some (c.toNat - 55)
  else none

/-- `hex.DecodeString` on a list of characters: fails on an odd-length input
or on any non-hex character. -/
def hexDecodeChars : List Char → Option (List Nat)
  | [] => some []
  | [_] => none
  | c1 :: c2 :: rest => do
      let hi ← hexCharVal c1
      let lo ← hexCharVal c2
      let tail ← hexDecodeChars rest
      pure ((hi * 16 + lo) :: tail)

/-- `hex.DecodeString` on a `String`. -/
def hexDecode (s : String) : Option (List Nat) :=
  hexDecodeChars s.data

/-! ## SHA-1 (`crypto/sha1`)

A direct implementation of FIPS 180 SHA-1 over byte lists, with all word
arithmetic carried out modulo `2 ^ 32`.
-/

/-- 32-bit truncation. -/
def w32 (n : Nat) : Nat := n % 2 ^ 32

/-- 32-bit left rotation. -/
def rotl32 (k x : Nat) : Nat :=
  w32 ((x <<< k) + (x >>> (32 - k)))

/-- SHA-1 message padding: append `0x80`, zero bytes to reach 56 mod 64, and
the 64-bit big-endian bit length. -/
def sha1Pad (msg : List Nat) : List Nat :=
  let len := msg.length
  let zeros := (64 + 56 - ((len + 1) % 64)) % 64
  let bitLen := len * 8
  msg ++ [0x80] ++ List.replicate zeros 0 ++
    [(bitLen >>> 56) % 256, (bitLen >>> 48) % 256, (bitLen >>> 40) % 256,
     (bitLen >>> 32) % 256, (bitLen >>> 24) % 256, (bitLen >>> 16) % 256,
     (bitLen >>> 8) % 256, bitLen % 256]

/-- Group a padded message into 32-bit big-endian words. -/
def bytesToWords : List Nat → List Nat
  | b0 :: b1 :: b2 :: b3 :: rest =>
      w32 (b0 <<< 24 + b1 <<< 16 + b2 <<< 8 + b3) :: bytesToWords rest
  | _ => []

/-- Extend 16 schedule words to `n` total words:
`w[i] = rotl1 (w[i-3] xor w[i-8] xor w[i-14] xor w[i-16])`. -/
def sha1Extend (ws : List Nat) (n : Nat) : List Nat :=
  match n with
  | 0 => ws
  | n + 1 =>
      let ws' := sha1Extend ws n
      if ws'.length < 80 then
        let i := ws'.length
        let x := Nat.xor (Nat.xor (ws'.getD (i - 3) 0) (ws'.getD (i - 8) 0))
                 (Nat.xor (ws'.getD (i - 14) 0) (ws'.getD (i - 16) 0))
        ws' ++ [rotl32 1 x]
      else ws'

/-- The five-word SHA-1 state. -/
structure Sha1State where
  h0 : Nat
  h1 : Nat
  h2 : Nat
  h3 : Nat
  h4 : Nat
deriving DecidableEq

/-- Initial SHA-1 state. -/
def sha1Init : Sha1State :=
  ⟨0x67452301, 0xEFCDAB89, 0x98BADCFE, 0x10325476, 0xC3D2E1F0⟩

/-- One of the 80 rounds of the compression function. -/
def sha1Round (i : Nat) (wi : Nat) : Nat × Nat × Nat × Nat × Nat → Nat × Nat × Nat × Nat × Nat :=
  fun (a, b, c, d, e) =>
    let f :=
      if i < 20 then Nat.xor (Nat.land b c) (Nat.land (w32 (2 ^ 32 - 1 - b)) d)
      else if i < 40 then Nat.xor (Nat.xor b c) d
      else if i < 60 then Nat.lor (Nat.lor (Nat.land b c) (Nat.land b d)) (Nat.land c d)
      else Nat.xor (Nat.xor b c) d
    let k :=
      if i < 20 then 0x5A827999
      else if i < 40 then 0x6ED9EBA1
      else if i < 60 then 0x8F1BBCDC
      else 0xCA62C1D6
    let temp := w32 (rotl32 5 a + f + e + k + wi)
    (temp, a, rotl32 30 b, c, d)

/-- Compress one 64-byte block into the running state. -/
def sha1Compress (st : Sha1State) (block : List Nat) : Sha1State :=
  let ws := sha1Extend (bytesToWords block) 64
  let init : Nat × Nat × Nat × Nat × Nat := (st.h0, st.h1, st.h2, st.h3, st.h4)
  let fin := (List.range 80).foldl (fun acc i => sha1Round i (ws.getD i 0) acc) init
  match fin with
  | (a, b, c, d, e) =>
      ⟨w32 (st.h0 + a), w32 (st.h1 + b), w32 (st.h2 + c), w32 (st.h3 + d), w32 (st.h4 + e)⟩

/-- Split a list into 64-byte blocks; the fuel argument (instantiated with
the list length, an upper bound on the number of blocks) makes the recursion
structural. -/
def chunk64Fuel : Nat → List Nat → List (List Nat)
  | 0, _ => []
  | _, [] => []
  | fuel + 1, l => l.take 64 :: chunk64Fuel fuel (l.drop 64)

/-- Split a padded message into 64-byte blocks. -/
def chunk64 (l : List Nat) : List (List Nat) :=
  chunk64Fuel l.length l

/-- Big-endian bytes of one 32-bit word. -/
def wordBytes (x : Nat) : List Nat :=
  [(x >>> 24) % 256, (x >>> 16) % 256, (x >>> 8) % 256, x % 256]

/-- `sha1.Sum`: the 20-byte SHA-1 digest of a byte sequence. -/
def sha1 (msg : List Nat) : List Nat :=
  let st := (chunk64 (sha1Pad msg)).foldl sha1Compress sha1Init
  wordBytes st.h0 ++ wordBytes st.h1 ++ wordBytes st.h2 ++ wordBytes st.h3 ++ wordBytes st.h4

/-- The 40-character lowercase hex rendering of the SHA-1 digest. -/
def sha1Hex (msg : List Nat) : String :=
  hexEncode (sha1 msg)

/-- Byte sequence of an ASCII string (as Go's `[]byte(s)` for ASCII data). -/
def strBytes (s : String) : List Nat :=
  s.data.map Char.toNat

set_option maxRecDepth 10000 in
example : sha1Hex (strBytes "hello world") = "2aae6c35c94fcfb415dbe95f408b9ce91ee846ed" := by
  decide

/-! ## Contacts (`contact.go`)

Modelled from the spec: `contact.go` itself is not part of the provided
sources (only its callers are).  Per the spec's data model, a contact is a
NodeId plus a transport address; the Go `Contact.ID` field is a pointer, so
it may be `nil`, which we model with `Option`. -/

/-- A routing-table contact: optional 160-bit id (a `nil` pointer in Go is
`none`) and a `host:port` address. -/
structure Contact where
  id : Option KademliaID
  address : String
deriving DecidableEq

/-- `NewContact`. -/
def NewContact (id : Option KademliaID) (address : String) : Contact :=
  ⟨id, address⟩

/-- `ID.Equals` applied to two contact-id pointers; in the Go code this is
only ever evaluated when the receiver pointer is non-nil. -/
def optIDEquals (a b : Option KademliaID) : Bool :=
  match a, b with
  | some x, some y => idEquals x y
  | _, _ => false

/-- XOR distance from a contact to a target (the Go code stores it in the
contact's `distance` field via `CalcDistance` and compares with `Less`). -/
def contactDist (c : Contact) (target : KademliaID) : KademliaID :=
  calcDistance (c.id.getD []) target

/-! ## Buckets (`bucket.go`)

The main list models `container/list`: the list head is the front (MRU) and
the last element is the back (LRU). -/

/-- `bucketSize` from `routingtable.go`: K = 20. -/
def bucketSize : Nat := 20

/-- A k-bucket: LRU-ordered main list plus the bounded replacement cache. -/
structure Bucket where
  main : List Contact
  repl : List Contact
  replCap : Nat
deriving DecidableEq

/-- `newBucket`: empty lists, replacement capacity 32. -/
def newBucket : Bucket :=
  ⟨[], [], 32⟩

/-- `bucket.addReplacement`: no-op on a duplicate id; when at capacity, the
oldest entry is shifted out (Go: `copy(repl, repl[1:])` then reslice to
`replCap-1`) before the newcomer is appended. -/
def addReplacement (b : Bucket) (c : Contact) : Bucket :=
  if b.repl.any (fun r => optIDEquals r.id c.id) then b
  else if b.replCap ≤ b.repl.length then
    { b with repl := ((b.repl.drop 1).take (b.replCap - 1)) ++ [c] }
  else
    { b with repl := b.repl ++ [c] }

/-- `bucket.GetContactAndCalcDistance` returns the main-list contacts in
front-to-back order (the per-contact cached distance is recomputed on demand
by `contactDist` in this model). -/
def getContactAndCalcDistance (b : Bucket) : List Contact :=
  b.main

/-! ## Routing table (`routingtable.go`) -/

/-- The routing table: the owner contact and `IDLength * 8 = 160` buckets.
The liveness probe (`pingFunc`) is passed explicitly to the operations that
use it instead of being stored. -/
structure RoutingTable where
  me : Contact
  buckets : List Bucket
deriving DecidableEq

/-- `NewRoutingTable`: 160 fresh buckets. -/
def NewRoutingTable (me : Contact) : RoutingTable :=
  ⟨me, List.replicate (IDLength * 8) newBucket⟩

/-- First set bit of one byte scanned from the most significant side:
`some j` when `(b >>> (7-j)) &&& 1 ≠ 0` for the smallest such `j < 8`. -/
def msbIndexByte (b : Nat) : Option Nat :=
  if (b >>> 7) % 2 ≠ 0 then some 0
  else if (b >>> 6) % 2 ≠ 0 then some 1
  else if (b >>> 5) % 2 ≠ 0 then some 2
  else if (b >>> 4) % 2 ≠ 0 then some 3
  else if (b >>> 3) % 2 ≠ 0 then some 4
  else if (b >>> 2) % 2 ≠ 0 then some 5
  else if (b >>> 1) % 2 ≠ 0 then some 6
  else if b % 2 ≠ 0 then some 7
  else none

/-- Scan the distance bytes for the first set bit. -/
def firstSetBit : List Nat → Nat → Nat
  | [], _ => IDLength * 8 - 1
  | b :: rest, i =>
      match msbIndexByte b with
      | some j => i * 8 + j
      | none => firstSetBit rest (i + 1)

/-- `RoutingTable.getBucketIndex`: index of the most significant differing
bit between `id` and the owner's id; `159` when the ids are equal. -/
def getBucketIndex (rt : RoutingTable) (id : KademliaID) : Nat :=
  firstSetBit (calcDistance id (rt.me.id.getD [])) 0

/-- Bucket at an index (in-range for every index the Go code computes). -/
def bucketAt (rt : RoutingTable) (i : Nat) : Bucket :=
  rt.buckets.getD i newBucket

/-- Replace the bucket at an index. -/
def setBucketAt (rt : RoutingTable) (i : Nat) (b : Bucket) : RoutingTable :=
  { rt with buckets := rt.buckets.set i b }

/-- Remove, scanning from the back (`list.Back()`/`Prev()`), the first
element whose id equals `target`; used by the eviction branch. -/
def removeFirstFromBack (target : Option KademliaID) (l : List Contact) : List Contact :=
  (l.reverse.eraseP (fun e => optIDEquals e.id target)).reverse

/-- Move to the front the first element, scanning from the back, whose id
equals `target`; the list is unchanged when no element matches. -/
def moveToFrontFromBack (target : Option KademliaID) (l : List Contact) : List Contact :=
  match l.reverse.find? (fun e => optIDEquals e.id target) with
  | none => l
  | some e => e :: removeFirstFromBack target l

/-- Move to the front the first element, scanning from the front
(`list.Front()`/`Next()`), whose id equals `target`. -/
def moveToFrontFromFront (target : Option KademliaID) (l : List Contact) : List Contact :=
  match l.find? (fun e => optIDEquals e.id target) with
  | none => l
  | some e => e :: l.eraseP (fun x => optIDEquals x.id target)

/-- `RoutingTable.AddContact` with the liveness probe `ping` (wired in Go
via `SetPingFunc`; the probe runs outside the table lock, which the
sequential model renders as an ordinary function call between the decision
phase and the mutation phase). -/
def AddContact (ping : Contact → Bool) (rt : RoutingTable) (c : Contact) : RoutingTable :=
  match c.id with
  | none => rt
  | some cid =>
    -- Ignore self.
    if rt.me.id.isSome ∧ idEquals (rt.me.id.getD []) cid then rt
    else
      let bucketIndex := getBucketIndex rt cid
      let b := bucketAt rt bucketIndex
      -- Phase 1: already present → move-to-front; room → push front.
      if b.main.any (fun e => optIDEquals e.id c.id) then
        setBucketAt rt bucketIndex { b with main := moveToFrontFromFront c.id b.main }
      else if b.main.length < bucketSize then
        setBucketAt rt bucketIndex { b with main := c :: b.main }
      else
        -- Full: capture the current LRU (the back element; non-nil in Go
        -- because the list length is at least bucketSize here).
        match b.main.getLast? with
        | none => rt
        | some lru =>
          -- Phase 2: liveness check (outside the lock in Go).
          let alive := ping lru
          -- Phase 3: mutate based on liveness.
          if !alive then
            setBucketAt rt bucketIndex
              { b with main := c :: removeFirstFromBack lru.id b.main }
          else
            setBucketAt rt bucketIndex
              (addReplacement { b with main := moveToFrontFromBack lru.id b.main } c)

/-- Stable insertion into a list sorted by ascending distance to `target`. -/
def insertByDist (target : KademliaID) (c : Contact) : List Contact → List Contact
  | [] => [c]
  | d :: ds =>
      if idLess (contactDist c target) (contactDist d target) then c :: d :: ds
      else d :: insertByDist target c ds

/-- Sort contacts by ascending XOR distance to `target`
(`ContactCandidates.Sort`; stable, and distances tie only when ids tie). -/
def sortByDist (target : KademliaID) (l : List Contact) : List Contact :=
  l.foldr (insertByDist target) []

/-- The candidate-gathering loop of `FindClosestContacts`: starting from the
target's bucket, widen to index `± i` while more candidates are needed.  The
loop condition is false for every `i > bucketIndex + 159`, so running it
with structural fuel `bucketIndex + IDLength * 8` from `i = 1` reaches the
loop's own exit before the fuel runs out. -/
def gatherCandidates (rt : RoutingTable) (bucketIndex count : Nat) :
    Nat → Nat → List Contact → List Contact
  | 0, _, acc => acc
  | fuel + 1, i, acc =>
    if (i ≤ bucketIndex ∨ bucketIndex + i < IDLength * 8) ∧ acc.length < count then
      let acc1 :=
        if i ≤ bucketIndex then
          acc ++ getContactAndCalcDistance (bucketAt rt (bucketIndex - i))
        else acc
      let acc2 :=
        if bucketIndex + i < IDLength * 8 then
          acc1 ++ getContactAndCalcDistance (bucketAt rt (bucketIndex + i))
        else acc1
      gatherCandidates rt bucketIndex count fuel (i + 1) acc2
    else acc

/-- `RoutingTable.FindClosestContacts`: gather candidates outward from the
target's bucket, sort by distance, and truncate to `count`. -/
def FindClosestContacts (rt : RoutingTable) (target : KademliaID) (count : Nat) : List Contact :=
  let bucketIndex := getBucketIndex rt target
  let start := getContactAndCalcDistance (bucketAt rt bucketIndex)
  let candidates := gatherCandidates rt bucketIndex count (bucketIndex + IDLength * 8) 1 start
  (sortByDist target candidates).take count

/-! ## Wire envelopes (`wire.go`)

The four request/response pairs.  The provided `wire.go` declares the four
M1 kinds; the remaining four (`FIND_VALUE`, `FIND_VALUE_OK`, `STORE`,
`STORE_OK`) are used throughout `network.go` and are modelled from the
spec's message table. -/

/-- `msgType`: the eight message kinds. -/
inductive MsgType
  | ping | pong | findNode | findNodeOK | findValue | findValueOK | storeReq | storeOK
deriving DecidableEq

/-- `wireContact`: serializable contact (id as hex, plus address). -/
structure WireContact where
  idHex : String
  address : String
deriving DecidableEq

/-- `wireContact.toContact`: decode the id hex and check its length. -/
def toContact (w : WireContact) : Option Contact :=
  match hexDecode w.idHex with
  | none => none
  | some idBytes =>
      if idBytes.length ≠ IDLength then none
      else some ⟨some idBytes, w.address⟩

/-- `fromContact`: hex-encode the contact id. -/
def fromContact (c : Contact) : WireContact :=
  ⟨hexEncode (c.id.getD []), c.address⟩

/-- `envelope`: the common message wrapper.  Optional wire fields
(`omitempty`) are modelled by their empty defaults. -/
structure Envelope where
  typ : MsgType
  From : WireContact
  msgID : String
  targetID : String := ""
  keyHex : String := ""
  value : List Nat := []
  contacts : List WireContact := []
deriving DecidableEq

/-! ## Read-loop dispatch (`network.go`, `readLoop`)

The inflight table maps a MessageId to a capacity-one slot (`chan envelope`
with buffer 1): `none` models an empty slot, `some e` a full one. -/

/-- The per-node inflight table: MessageId → capacity-one slot. -/
abbrev InflightTable := List (String × Option Envelope)

/-- Map lookup (`network.inflight[env.MsgID]`): `none` when no slot is
registered for the id. -/
def lookupInflight (t : InflightTable) (msgID : String) : Option (Option Envelope) :=
  (t.find? (fun e => e.1 = msgID)).map (·.2)

/-- Replace the slot registered for `msgID`. -/
def setInflight (t : InflightTable) (msgID : String) (slot : Option Envelope) : InflightTable :=
  t.map fun e => if e.1 = msgID then (e.1, slot) else e

/-- The non-blocking push (`select { case ch <- env: default: }`): deposit
into an empty slot, discard against a full one. -/
def nonBlockingPush (slot : Option Envelope) (env : Envelope) : Option Envelope :=
  match slot with
  | none => some env
  | some e => some e

/-- Is this one of the four response kinds routed to waiters? -/
def isResponseKind (t : MsgType) : Bool :=
  t = MsgType.pong ∨ t = MsgType.findNodeOK ∨ t = MsgType.findValueOK ∨ t = MsgType.storeOK

/-- Which handler the request-path `switch` selects. -/
inductive HandlerCall
  | ping | findNode | storeReq | findValue
deriving DecidableEq

/-- The request-path `switch` of `readLoop` (unknown kinds are ignored). -/
def requestDispatch (env : Envelope) : Option HandlerCall :=
  match env.typ with
  | .ping => some .ping
  | .findNode => some .findNode
  | .storeReq => some .storeReq
  | .findValue => some .findValue
  | _ => none

/-- One decoded datagram through `readLoop`: responses with a registered
slot are deposited (non-blocking) and processing stops (`continue`);
responses without a slot fall through to the request `switch`, whose
`default` arm ignores them. -/
def readDispatch (inflight : InflightTable) (env : Envelope) :
    InflightTable × Option HandlerCall :=
  if isResponseKind env.typ then
    match lookupInflight inflight env.msgID with
    | some slot => (setInflight inflight env.msgID (nonBlockingPush slot env), none)
    | none => (inflight, requestDispatch env)
  else (inflight, requestDispatch env)

/-! ## FIND_NODE handler (`network.go`, `handleFindNode`) -/

/-- Zero-pad / truncate a byte list into a 20-byte id
(Go: `var target KademliaID; copy(target[:], idBytes)`). -/
def idFromBytes (b : List Nat) : KademliaID :=
  (b ++ List.replicate IDLength 0).take IDLength

/-- `handleFindNode`: decode and validate the target, gather the K closest
contacts, and reply with `FIND_NODE_OK` echoing the request MessageId.  The
routing table is returned so a theorem can observe that the handler never
modifies it. -/
def handleFindNode (rt : RoutingTable) (env : Envelope) : RoutingTable × Option Envelope :=
  match hexDecode env.targetID with
  | none => (rt, none)
  | some idBytes =>
      if idBytes.length ≠ IDLength then (rt, none)
      else
        let target := idFromBytes idBytes
        let contacts := FindClosestContacts rt target bucketSize
        (rt, some { typ := .findNodeOK, From := fromContact rt.me, msgID := env.msgID,
                    contacts := contacts.map fromContact })

/-! ## Node state and the value store (`kademlia.go`) -/

/-- Node-local state: own contact, routing table, value store
(`valueStore : map[string][]byte` as an association list) and the origin-key
set (`originKeys`, as a duplicate-free list). -/
structure Node where
  me : Contact
  routingTable : RoutingTable
  valueStore : List (String × List Nat)
  originKeys : List String
deriving DecidableEq

/-- Map write (`valueStore[keyHex] = v`) for the association list
underlying `valueStore`: replace the entry for the key, appending when the
key is absent. -/
def upsertStore : List (String × List Nat) → String → List Nat → List (String × List Nat)
  | [], keyHex, v => [(keyHex, v)]
  | e :: rest, keyHex, v =>
      if e.1 = keyHex then (keyHex, v) :: rest else e :: upsertStore rest keyHex v

/-- `storeLocal`: write a copy of the value under the key (copying is a
no-op on immutable lists). -/
def storeLocal (n : Node) (keyHex : String) (value : List Nat) : Node :=
  { n with valueStore := upsertStore n.valueStore keyHex value }

/-- `loadLocal`: read back a copy of the value, if present. -/
def loadLocal (n : Node) (keyHex : String) : Option (List Nat) :=
  (n.valueStore.find? (fun e => e.1 = keyHex)).map (·.2)

/-- `keyFromData`: the SHA-1 digest of the data, as hex key and as id. -/
def keyFromData (data : List Nat) : String × KademliaID :=
  (hexEncode (sha1 data), sha1 data)

/-- Set-insert into the origin-key list (`originKeys[keyHex] = struct{}{}`). -/
def addOriginKey (keys : List String) (keyHex : String) : List String :=
  if keys.contains keyHex then keys else keys ++ [keyHex]

/-- A network message dispatched by the node, as recorded in call traces. -/
inductive Sent
  | findValue (peer : Contact) (keyHex : String)
  | storeTo (peer : Contact) (keyHex : String) (value : List Nat)
deriving DecidableEq

/-- `replicateToClosest`: no-op guard for a nil key id, a malformed key, or
an **empty value**; otherwise read the K closest contacts from the
routing-table view left by the embedded `LookupContact` refresh (passed in
as `tableAfterLookup`, since the lookup's network exchange is outside this
model), sort them by distance, and dispatch a `STORE` to each contact other
than self. -/
def replicateToClosest (tableAfterLookup : RoutingTable) (meAddr : String)
    (keyHex : String) (keyID : Option KademliaID) (value : List Nat) : List Sent :=
  if keyID = none ∨ keyHex.length ≠ 40 ∨ value.length = 0 then []
  else
    let kid := keyID.getD []
    let contacts := sortByDist kid (FindClosestContacts tableAfterLookup kid bucketSize)
    (contacts.filter (fun c => c.address ≠ meAddr)).map fun c => .storeTo c keyHex value

/-- `Put`: hash the data, store it locally at the origin, record the key in
the origin set, then replicate to the current K closest peers.  Returns the
key, the node state after the local effects, and the trace of dispatched
STOREs.  (Go's `Put` also returns an `error` which is `nil` on every path.) -/
def Put (tableAfterLookup : RoutingTable) (n : Node) (data : List Nat) :
    String × Node × List Sent :=
  let keyHex := (keyFromData data).1
  let keyID := (keyFromData data).2
  let n1 := storeLocal n keyHex data
  let n2 := { n1 with originKeys := addOriginKey n1.originKeys keyHex }
  let sends := replicateToClosest tableAfterLookup n2.me.address keyHex (some keyID) data
  (keyHex, n2, sends)

/-- `republishOwnedKeys`: snapshot the origin keys; for each, skip it when
the stored value is missing or empty, or when the key fails hex/length
validation; otherwise replicate it to the current K closest peers.
`tables` supplies, per key, the routing-table view after that key's
embedded lookup refresh. -/
def republishOwnedKeys (tables : String → RoutingTable) (n : Node) : List Sent :=
  n.originKeys.flatMap fun keyHex =>
    match loadLocal n keyHex with
    | none => []
    | some val =>
        if val.length = 0 then []
        else
          match hexDecode keyHex with
          | none => []
          | some b =>
              if b.length ≠ IDLength then []
              else replicateToClosest (tables keyHex) n.me.address keyHex
                     (some (idFromBytes b)) val

/-! ## `Get` (`kademlia.go`): VALUE-mode iterative lookup

The per-round network interaction of `sendFindValueTo` is supplied by an
oracle (`GetEnv.rpc`): for a round number and a queried peer it yields
either a timeout or a reply carrying the value or a (successfully decoded)
contact list plus the decoded responder identity from the wire.  Responses
arrive concurrently in Go; the model folds each round's completions in
dispatch order. -/

/-- What one `sendFindValueTo` call yields for a given peer. -/
structure RpcReply where
  timeout : Bool
  value : List Nat := []
  contacts : List Contact := []
  responder : Option Contact := none

/-- The network oracle for a `Get` call: per-round replies plus the
liveness probe used by routing-table eviction. -/
structure GetEnv where
  rpc : Nat → Contact → RpcReply
  ping : Contact → Bool

/-- The outcome of `Get`.  `panicked` models the Go runtime panic (index
out of range) in the success branch; `fuelOut` is the model artifact for an
exhausted round budget. -/
inductive GetResult
  | found (value : List Nat) (responder : Contact)
  | errInvalidLength
  | errBadHex
  | notFound
  | panicked
  | fuelOut
deriving DecidableEq

/-- The `nextBatch` closure: take up to `alpha` addressable, unvisited
contacts from the refreshed candidate list, marking them visited. -/
def nextBatchGo (alpha : Nat) :
    List Contact → List String → List Contact → List Contact × List String
  | [], visited, batch => (batch, visited)
  | c :: rest, visited, batch =>
      if alpha ≤ batch.length then (batch, visited)
      else if c.address = "" then nextBatchGo alpha rest visited batch
      else if visited.contains c.address then nextBatchGo alpha rest visited batch
      else nextBatchGo alpha rest (visited ++ [c.address]) (batch ++ [c])

/-- `alpha` from `NewKademlia`: lookup parallelism 3. -/
def alpha : Nat := 3

/-- The routing-table updates performed inside `sendFindValueTo` when a
reply arrives: learn the responder, then each returned contact. -/
def learnFromReply (ping : Contact → Bool) (rt : RoutingTable) (r : RpcReply) : RoutingTable :=
  if r.timeout then rt
  else
    let rt1 := match r.responder with
      | some c => AddContact ping rt c
      | none => rt
    r.contacts.foldl (AddContact ping) rt1

/-- The path-cache selection loop of `Get`: index of the queried contact
closest to the key that is neither the responder nor self, or `-1` when no
such contact exists (the Go sentinel). -/
def pathCacheBestIdx (meAddr srcAddr : String) (keyID : KademliaID)
    (queried : List Contact) : Int :=
  (List.range queried.length).foldl
    (fun bestIdx i =>
      let q := queried.getD i ⟨none, ""⟩
      if q.address = srcAddr then bestIdx
      else if q.address = meAddr then bestIdx
      else if bestIdx = -1 then (i : Int)
      else if idLess (contactDist q keyID)
                     (contactDist (queried.getD bestIdx.toNat ⟨none, ""⟩) keyID) then (i : Int)
      else bestIdx)
    (-1)

/-- The success branch of `Get` once some RPC returned a value: record the
path-cache STORE when an eligible contact exists; then the debug print
indexes `queried[bestIdx]` *outside* that guard, which panics in Go when
`bestIdx = -1`. -/
def getSuccess (meAddr : String) (keyHex : String) (keyID : KademliaID)
    (queried : List Contact) (src : Contact) (val : List Nat) :
    GetResult × List Sent :=
  let bestIdx := pathCacheBestIdx meAddr src.address keyID queried
  if bestIdx < 0 then (.panicked, [])
  else (.found val src, [.storeTo (queried.getD bestIdx.toNat ⟨none, ""⟩) keyHex val])

/-- The round loop of `Get`.  State: remaining fuel, round number, routing
table, visited addresses, queried contacts, previous best id, and the trace
of dispatched messages.  Returns the outcome, the final table, the trace,
and the value cached by `storeLocal` on success (if any). -/
def getLoop (env : GetEnv) (meAddr : String) (keyHex : String) (keyID : KademliaID) :
    Nat → Nat → RoutingTable → List String → List Contact → Option KademliaID → List Sent →
    GetResult × RoutingTable × List Sent × Option (List Nat)
  | 0, _, rt, _, _, _, trace => (.fuelOut, rt, trace, none)
  | fuel + 1, round, rt, visited, queried, lastBest, trace =>
      let candidates := FindClosestContacts rt keyID 1024
      let (batch, visited') := nextBatchGo alpha candidates visited []
      if batch = [] then (.notFound, rt, trace, none)
      else
        let queried' := queried ++ batch
        let trace1 := trace ++ batch.map (fun p => Sent.findValue p keyHex)
        let replies := batch.map fun p => (p, env.rpc round p)
        let rt' := replies.foldl (fun acc pr => learnFromReply env.ping acc pr.2) rt
        let successes := replies.filter fun pr => !pr.2.timeout && pr.2.value ≠ []
        match successes.getLast? with
        | some (p, r) =>
            -- cache locally, then path-cache
            let (res, storeSends) := getSuccess meAddr keyHex keyID queried' p r.value
            (res, rt', trace1 ++ storeSends, some r.value)
        | none =>
            let closestNow := FindClosestContacts rt' keyID 1
            match closestNow.head? with
            | none => (.notFound, rt', trace1, none)
            | some bestC =>
                let best := bestC.id.getD []
                match lastBest with
                | some lb =>
                    if !idLess (calcDistance best keyID) (calcDistance lb keyID) then
                      (.notFound, rt', trace1, none)
                    else
                      getLoop env meAddr keyHex keyID fuel (round + 1) rt' visited' queried'
                        (some best) trace1
                | none =>
                    getLoop env meAddr keyHex keyID fuel (round + 1) rt' visited' queried'
                      (some best) trace1

/-- `Get`: local check first; then key validation (length 40, hex decode);
then the iterative VALUE lookup.  Returns the outcome, the updated node
state, and the trace of dispatched messages. -/
def Get (env : GetEnv) (fuel : Nat) (n : Node) (keyHex : String) :
    GetResult × Node × List Sent :=
  match loadLocal n keyHex with
  | some v => (.found v n.me, n, [])
  | none =>
      if keyHex.length ≠ 40 then (.errInvalidLength, n, [])
      else
        match hexDecode keyHex with
        | none => (.errBadHex, n, [])
        | some b =>
            let keyID := idFromBytes b
            let r := getLoop env n.me.address keyHex keyID fuel 0 n.routingTable [] [] none []
            let n1 := { n with routingTable := r.2.1 }
            let n2 := match r.2.2.2 with
              | some v => storeLocal n1 keyHex v
              | none => n1
            (r.1, n2, r.2.2.1)

/-! ## The convergence loop (`LookupContact` and the `Get` round loop)

Both iterative lookups share the same convergence skeleton, abstracted here
over an environment that reports, for each round, whether `nextBatch`
produced any peer to query and which contact the routing table holds
closest to the target at the end of the round.  The loop records the best
id each continuing round (`lastBest` in the Go code) and exits at the first
round whose observation fails to improve on it. -/

/-- What the environment (routing-table state as updated by that round's
responses) shows at the end of one round. -/
structure RoundObs where
  batchNonempty : Bool
  closest : Option KademliaID

/-- Why the round loop stopped. -/
inductive StopReason
  | noCandidates
  | noClosest
  | converged (best : KademliaID)
deriving DecidableEq

/-- The convergence loop, with structural fuel.  Returns `none` when the
fuel runs out, else the list of bests recorded by the continuing rounds
together with the reason the loop exited. -/
def lookupRounds (env : Nat → RoundObs) (target : KademliaID) :
    Nat → Nat → Option KademliaID → List KademliaID →
    Option (List KademliaID × StopReason)
  | 0, _, _, _ => none
  | fuel + 1, round, lastBest, recorded =>
      if !(env round).batchNonempty then some (recorded, .noCandidates)
      else
        match (env round).closest with
        | none => some (recorded, .noClosest)
        | some best =>
            match lastBest with
            | some lb =>
                if !idLess (calcDistance best target) (calcDistance lb target) then
                  some (recorded, .converged best)
                else
                  lookupRounds env target fuel (round + 1) (some best) (recorded ++ [best])
            | none =>
                lookupRounds env target fuel (round + 1) (some best) (recorded ++ [best])

/-! ## CLI (`cli.go`)

`RunLine` is modelled as a pure function from the input line to the lines
it prints, the error it returns, and the trace of node-API calls it makes;
the node's answers are supplied by an oracle. -/

/-- Whitespace as trimmed by `strings.TrimSpace` (ASCII cases). -/
def goIsSpace (c : Char) : Bool :=
  c = ' ' ∨ c = '\t' ∨ c = '\n' ∨ c = '\x0b' ∨ c = '\x0c' ∨ c = '\r'

/-- `strings.TrimSpace` on a character list. -/
def trimChars (l : List Char) : List Char :=
  ((l.dropWhile goIsSpace).reverse.dropWhile goIsSpace).reverse

/-- The whitespace that `splitOnce` treats as the head/tail boundary. -/
def goSplitWs (c : Char) : Bool :=
  c = ' ' ∨ c = '\t' ∨ c = '\n' ∨ c = '\r'

/-- `splitOnce`: split on the first whitespace run into (head, tail),
skipping subsequent spaces and tabs. -/
def splitOnce (s : List Char) : List Char × List Char :=
  let s := trimChars s
  match s.span (fun c => !goSplitWs c) with
  | (head, []) => (head, [])
  | (head, _ :: rest) => (head, rest.dropWhile (fun c => c = ' ' ∨ c = '\t'))

/-- ASCII lowercase (`strings.ToLower` on ASCII command words). -/
def toLowerAscii (l : List Char) : List Char :=
  l.map fun c => if 'A' ≤ c ∧ c ≤ 'Z' then Char.ofNat (c.toNat + 32) else c

/-- `isValidHex`: `hex.DecodeString` succeeds. -/
def isValidHex (h : String) : Bool :=
  (hexDecode h).isSome

/-- The node-API calls a CLI line can make. -/
inductive CliCall
  | putCall (content : String)
  | getCall (keyHex : String)
  | quit
deriving DecidableEq

/-- Oracle for the wrapped node: `Put` never fails in the Go code, so the
put answer is just the returned key; a `get` answer is the value bytes and
responder address on a hit. -/
structure CliEnv where
  putAnswer : String → String
  getAnswer : String → Option (List Nat × String)

/-- What one `RunLine` call produced: printed lines, returned error (as a
message; `"EOF"` models `io.EOF`), and node-API calls made. -/
structure CliOut where
  output : List String
  err : Option String
  calls : List CliCall
deriving DecidableEq

/-- Value bytes rendered by `fmt.Fprintf("%s", val)` (ASCII). -/
def bytesToStr (v : List Nat) : String :=
  String.mk (v.map Char.ofNat)

/-- `CLI.RunLine`. -/
def runLine (env : CliEnv) (line : String) : CliOut :=
  let l := trimChars line.data
  if l = [] then ⟨[], none, []⟩
  else
    let (cmdC, argC) := splitOnce l
    let cmd := String.mk (toLowerAscii cmdC)
    let arg := String.mk argC
    if cmd = "put" then
      let content := String.mk (trimChars arg.data)
      if content = "" then ⟨["ERR missing argument"], some "put: missing argument", []⟩
      else
        let keyHex := env.putAnswer content
        ⟨[keyHex], none, [.putCall content]⟩
    else if cmd = "get" then
      let keyHex := String.mk (trimChars arg.data)
      if keyHex = "" then ⟨["ERR missing argument"], some "get: missing argument", []⟩
      else if keyHex.length ≠ 40 ∨ !isValidHex keyHex then
        ⟨["ERR invalid key"], some "get: invalid key", []⟩
      else
        match env.getAnswer keyHex with
        | none => ⟨["NOTFOUND"], some "not found", [.getCall keyHex]⟩
        | some (val, fromAddr) =>
            ⟨[bytesToStr val, "from " ++ fromAddr], none, [.getCall keyHex]⟩
    else if cmd = "exit" then ⟨[], some "EOF", [.quit]⟩
    else ⟨["ERR unknown command"], some "unknown command", []⟩

/-! ## Auxiliary predicates -/

/-- Is this character a lowercase hexadecimal digit? -/
def isLowercaseHexDigit (c : Char) : Bool :=
  ('0' ≤ c ∧ c ≤ '9') ∨ ('a' ≤ c ∧ c ≤ 'f')

/-- Does a dispatched message carry a non-empty value (vacuously true for
lookups, which carry none)? -/
def sentNonemptyValue : Sent → Bool
  | .storeTo _ _ v => !v.isEmpty
  | .findValue _ _ => true

/-! ### Concrete instances used by witnesses and counterexamples -/

/-- A node owner with the all-zero id. -/
def owner0 : Contact := ⟨some (List.replicate 20 0), "127.0.0.1:9999"⟩

/-- A peer whose id differs from `owner0` in the most significant bit. -/
def peer1 : Contact := ⟨some (128 :: List.replicate 19 0), "127.0.0.1:8000"⟩

/-- An inbound well-formed FIND_NODE request from `peer1`. -/
def findNodeReq : Envelope :=
  { typ := .findNode, From := fromContact peer1, msgID := "req-1",
    targetID := hexEncode (List.replicate 20 0) }

/-- A PONG response envelope. -/
def pongMsg : Envelope := { typ := .pong, From := fromContact peer1, msgID := "m1" }

/-- A freshly started node with an empty store and table. -/
def emptyNode : Node := ⟨owner0, NewRoutingTable owner0, [], []⟩

/-- A node whose value store was populated, via an inbound STORE, under a
key that is not 40 hex characters (`handleStore` does not validate keys). -/
def poisonedNode : Node := ⟨owner0, NewRoutingTable owner0, [("abc", [42])], []⟩

/-- A node that knows exactly one peer. -/
def onePeerNode : Node :=
  ⟨owner0, AddContact (fun _ => true) (NewRoutingTable owner0) peer1, [], []⟩

/-- A network oracle on which every RPC times out. -/
def silentEnv : GetEnv := ⟨fun _ _ => ⟨true, [], [], none⟩, fun _ => true⟩

/-- A network oracle on which every FIND_VALUE immediately returns the
value `[7]` with `peer1` as the wire responder. -/
def valueEnv : GetEnv := ⟨fun _ _ => ⟨false, [7], [], some peer1⟩, fun _ => true⟩

/-- A valid 40-hex key, not stored anywhere. -/
def key1 : String := hexEncode (1 :: List.replicate 19 0)

/-- A CLI oracle whose node answers nothing. -/
def cliEnv0 : CliEnv := ⟨fun _ => "", fun _ => none⟩

/-- The `i`-th of a family of distinct peers that all land in bucket 0 of
`owner0`'s table (most significant bit set; low byte varies). -/
def mkPeer (i : Nat) : Contact :=
  ⟨some (128 :: List.replicate 18 0 ++ [i]), "127.0.0.1:" ++ toString (10000 + i)⟩

/-- A table whose bucket 0 is filled to capacity with `mkPeer 0 ..
mkPeer 19`, inserted in order (so `mkPeer 0` is the LRU). -/
def fullTable : RoutingTable :=
  ((List.range bucketSize).map mkPeer).foldl (AddContact (fun _ => true))
    (NewRoutingTable owner0)

/-- A 21st contact for the full bucket. -/
def newcomer : Contact := mkPeer 200

/-- A round environment that always reports a candidate and the same
closest contact. -/
def constObsEnv : Nat → RoundObs := fun _ => ⟨true, some (List.replicate 20 0)⟩

/-- The bucket invariant maintained by `AddContact`: the main list is
bounded by K with pairwise-distinct, non-nil ids, and the replacement cache
is bounded by its capacity R = 32. -/
def BucketInv (b : Bucket) : Prop :=
  b.main.length ≤ bucketSize ∧
  b.main.Pairwise (fun x y => x.id ≠ y.id) ∧
  (∀ e ∈ b.main, e.id.isSome) ∧
  b.repl.length ≤ b.replCap ∧
  b.replCap = 32

/-! ## Helper lemmas -/

theorem loadLocal_storeLocal (n : Node) (keyHex : String) (v : List Nat) :
    loadLocal (storeLocal n keyHex v) keyHex = some v := by
  show ((upsertStore n.valueStore keyHex v).find? (fun e => e.1 = keyHex)).map (·.2) = some v
  induction n.valueStore with
  | nil => simp [upsertStore, List.find?]
  | cons e rest ih =>
      by_cases h : e.1 = keyHex
      · simp [upsertStore, h, List.find?]
      · simp only [upsertStore, if_neg h]
        rw [List.find?_cons_of_neg _ (by simpa using h)]
        exact ih

theorem loadLocal_storeLocal_me (n : Node) (keyHex : String) (v : List Nat) :
    (storeLocal n keyHex v).me = n.me := rfl

theorem contains_addOriginKey (keys : List String) (k : String) :
    (addOriginKey keys k).contains k = true := by
  by_cases h : k ∈ keys
  · simp [addOriginKey, List.elem_eq_mem, h]
  · simp [addOriginKey, List.elem_eq_mem, h]

theorem sha1_length (msg : List Nat) : (sha1 msg).length = 20 := by
  simp [sha1, wordBytes]

theorem wordBytes_lt (x : Nat) : ∀ b ∈ wordBytes x, b < 256 := by
  intro b hb
  simp only [wordBytes, List.mem_cons, List.not_mem_nil, or_false] at hb
  rcases hb with h | h | h | h <;> subst h <;> exact Nat.mod_lt _ (by norm_num)

theorem sha1_bytes_lt (msg : List Nat) : ∀ b ∈ sha1 msg, b < 256 := by
  intro b hb
  simp only [sha1, List.mem_append] at hb
  rcases hb with (((h | h) | h) | h) | h <;> exact wordBytes_lt _ b h

theorem hexEncode_length (bytes : List Nat) :
    (hexEncode bytes).length = 2 * bytes.length := by
  simp only [hexEncode]
  show (bytes.flatMap fun b => [hexDigitChar ((b >>> 4) % 16), hexDigitChar (b % 16)]).length
      = 2 * bytes.length
  induction bytes with
  | nil => simp
  | cons b rest ih => simp [List.flatMap_cons, ih]; ring

theorem hexDigitChar_mem (n : Nat) (h : n < 16) :
    isLowercaseHexDigit (hexDigitChar n) = true := by
  interval_cases n <;> decide

theorem hexEncode_chars (bytes : List Nat) :
    ∀ c ∈ (hexEncode bytes).data, isLowercaseHexDigit c = true := by
  intro c hc
  simp only [hexEncode] at hc
  have : c ∈ bytes.flatMap fun b => [hexDigitChar ((b >>> 4) % 16), hexDigitChar (b % 16)] := hc
  simp only [List.mem_flatMap, List.mem_cons, List.not_mem_nil, or_false] at this
  obtain ⟨b, _, h | h⟩ := this <;>
    (subst h; exact hexDigitChar_mem _ (Nat.mod_lt _ (by norm_num)))

theorem replicate_sends_shape (tbl : RoutingTable) (a k : String)
    (kid : Option KademliaID) (v : List Nat) (s : Sent)
    (hs : s ∈ replicateToClosest tbl a k kid v) : ∃ c, s = Sent.storeTo c k v := by
  unfold replicateToClosest at hs
  split at hs
  · simp at hs
  · simp only [List.mem_map, List.mem_filter] at hs
    obtain ⟨c, _, hc⟩ := hs
    exact ⟨c, hc.symm⟩

/-! ## Claim theorems -/

/-- C1: for every byte sequence `bytes`, calling `Get` on the key returned
by `Put bytes` on the same node is a local hit: it returns `bytes` with the
node's own contact as responder, leaves the node unchanged, and dispatches
no lookup RPCs (empty message trace). -/
theorem put_get_local_roundtrip (tbl : RoutingTable) (env : GetEnv) (fuel : Nat)
    (n : Node) (data : List Nat) :
    Get env fuel (Put tbl n data).2.1 (Put tbl n data).1 =
      (GetResult.found data (Put tbl n data).2.1.me, (Put tbl n data).2.1, []) := by
  have hload : loadLocal (Put tbl n data).2.1 (Put tbl n data).1 = some data :=
    loadLocal_storeLocal n (keyFromData data).1 data
  unfold Get
  rw [hload]

/-- C2: `Put data` returns the 40-character lowercase hex rendering of the
SHA-1 digest of `data` (Go's `Put` returns a `nil` error on every path),
stores `data` locally under that key, adds the key to the origin set, and
on the bytes of "hello world" returns
`2aae6c35c94fcfb415dbe95f408b9ce91ee846ed`. -/
theorem put_returns_sha1_key (tbl : RoutingTable) (n : Node) (data : List Nat) :
    (Put tbl n data).1 = sha1Hex data ∧
    (sha1Hex data).length = 40 ∧
    (∀ c ∈ (sha1Hex data).data, isLowercaseHexDigit c = true) ∧
    loadLocal (Put tbl n data).2.1 (sha1Hex data) = some data ∧
    (Put tbl n data).2.1.originKeys.contains (sha1Hex data) = true ∧
    sha1Hex (strBytes "hello world") = "2aae6c35c94fcfb415dbe95f408b9ce91ee846ed" := by
  refine ⟨rfl, ?_, hexEncode_chars _, ?_, ?_, ?_⟩
  · show (hexEncode (sha1 data)).length = 40
    rw [hexEncode_length, sha1_length]
  · exact loadLocal_storeLocal n (keyFromData data).1 data
  · exact contains_addOriginKey n.originKeys (keyFromData data).1
  · set_option maxRecDepth 10000 in decide

/-- C10: an empty value is never the subject of a STORE.  `Put` of the
empty sequence still returns its SHA-1 key, stores the empty value locally
and records the origin key, but its replication trace is empty;
`replicateToClosest` returns immediately on an empty value for any
routing-table view; and every STORE dispatched by the republisher (which
skips origin keys whose stored value is empty or missing) carries a
non-empty value. -/
theorem empty_value_never_replicated :
    (∀ (tbl : RoutingTable) (meAddr keyHex : String) (keyID : Option KademliaID),
       replicateToClosest tbl meAddr keyHex keyID [] = []) ∧
    (∀ (tbl : RoutingTable) (n : Node),
       Put tbl n [] =
         (sha1Hex [],
          { storeLocal n (sha1Hex []) [] with
            originKeys := addOriginKey n.originKeys (sha1Hex []) }, []) ∧
       loadLocal (Put tbl n []).2.1 (sha1Hex []) = some [] ∧
       (Put tbl n []).2.1.originKeys.contains (sha1Hex []) = true) ∧
    (∀ (tables : String → RoutingTable) (n : Node),
       (republishOwnedKeys tables n).all sentNonemptyValue = true) := by
  have hrep : ∀ (tbl : RoutingTable) (meAddr keyHex : String) (keyID : Option KademliaID),
      replicateToClosest tbl meAddr keyHex keyID [] = [] := by
    intro tbl meAddr keyHex keyID
    simp [replicateToClosest]
  refine ⟨hrep, ?_, ?_⟩
  · intro tbl n
    refine ⟨?_, loadLocal_storeLocal n (keyFromData []).1 [],
            contains_addOriginKey n.originKeys (keyFromData []).1⟩
    show (_, _, replicateToClosest tbl _ _ _ []) = _
    rw [hrep]
    rfl
  · intro tables n
    rw [List.all_eq_true]
    intro s hs
    simp only [republishOwnedKeys, List.mem_flatMap] at hs
    obtain ⟨keyHex, -, hmem⟩ := hs
    split at hmem
    · simp at hmem
    · rename_i val hval
      split at hmem
      · simp at hmem
      · rename_i hv
        split at hmem
        · simp at hmem
        · rename_i b hdec
          split at hmem
          · simp at hmem
          · obtain ⟨c, hc⟩ := replicate_sends_shape _ _ _ _ _ _ hmem
            subst hc
            cases val with
            | nil => exact absurd rfl hv
            | cons x xs => simp [sentNonemptyValue]

/-- C3: for every inbound datagram of one of the four response kinds, the
reader deposits the envelope into the registered inflight slot with a
non-blocking push — an empty slot receives the envelope, a full slot
discards it — and never invokes a handler for it; a response with no
matching slot is dropped (table unchanged, no handler). -/
theorem response_routed_to_inflight_slot (inflight : InflightTable) (env : Envelope)
    (h : isResponseKind env.typ = true) :
    (∀ slot, lookupInflight inflight env.msgID = some slot →
       readDispatch inflight env =
         (setInflight inflight env.msgID (nonBlockingPush slot env), none)) ∧
    nonBlockingPush none env = some env ∧
    (∀ e, nonBlockingPush (some e) env = some e) ∧
    (lookupInflight inflight env.msgID = none →
       readDispatch inflight env = (inflight, none)) := by
  have hreq : requestDispatch env = none := by
    cases htyp : env.typ <;> simp [isResponseKind, htyp] at h ⊢ <;>
      simp [requestDispatch, htyp]
  refine ⟨?_, rfl, fun _ => rfl, ?_⟩
  · intro slot hslot
    simp [readDispatch, h, hslot]
  · intro hnone
    simp [readDispatch, h, hnone, hreq]

/-- C3 witness: a PONG with a registered empty slot is deposited into it. -/
theorem response_routed_witness :
    readDispatch [("m1", none)] pongMsg = ([("m1", some pongMsg)], none) :=
  ((response_routed_to_inflight_slot [("m1", none)] pongMsg (by decide)).1 none
    (by decide)).trans (by decide)

theorem FindClosestContacts_length_le (rt : RoutingTable) (target : KademliaID)
    (count : Nat) : (FindClosestContacts rt target count).length ≤ count := by
  simp only [FindClosestContacts]
  exact List.length_take_le _ _

/-- C4 (amended): on a well-formed inbound FIND_NODE, the handler replies
with a FIND_NODE_OK carrying the up-to-K (= 20) contacts closest to the
requested target and echoing the request's MessageId verbatim; the routing
table is left unchanged (the sender is *not* observed). -/
theorem findNode_handler_reply (rt : RoutingTable) (env : Envelope) (idBytes : List Nat)
    (h1 : hexDecode env.targetID = some idBytes) (h2 : idBytes.length = IDLength) :
    handleFindNode rt env =
      (rt, some { typ := .findNodeOK, From := fromContact rt.me, msgID := env.msgID,
                  contacts := (FindClosestContacts rt (idFromBytes idBytes) bucketSize).map
                    fromContact }) ∧
    (FindClosestContacts rt (idFromBytes idBytes) bucketSize).length ≤ bucketSize := by
  refine ⟨?_, FindClosestContacts_length_le rt _ _⟩
  unfold handleFindNode
  rw [h1]
  simp [h2]

/-- C4 witness: a concrete well-formed FIND_NODE request handled on a fresh
table. -/
theorem findNode_handler_reply_witness :
    handleFindNode (NewRoutingTable owner0) findNodeReq =
      (NewRoutingTable owner0,
       some { typ := .findNodeOK, From := fromContact (NewRoutingTable owner0).me,
              msgID := findNodeReq.msgID,
              contacts := (FindClosestContacts (NewRoutingTable owner0)
                (idFromBytes (List.replicate 20 0)) bucketSize).map fromContact }) ∧
    (FindClosestContacts (NewRoutingTable owner0) (idFromBytes (List.replicate 20 0))
      bucketSize).length ≤ bucketSize :=
  findNode_handler_reply (NewRoutingTable owner0) findNodeReq (List.replicate 20 0)
    (by decide) (by decide)

/-- C4 counterexample to the claim as stated: the FIND_NODE handler does
not observe the sender — after handling a well-formed request from `peer1`
on a fresh table, the table is unchanged and every bucket is still empty,
so the sender was not added. -/
theorem findNode_handler_not_observing :
    (handleFindNode (NewRoutingTable owner0) findNodeReq).1 = NewRoutingTable owner0 ∧
    ∀ b ∈ (handleFindNode (NewRoutingTable owner0) findNodeReq).1.buckets, b.main = [] := by
  constructor
  · decide
  · decide

theorem dropWhile_eq_self_of_all_false {p : Char → Bool} :
    ∀ l : List Char, (∀ c ∈ l, p c = false) → l.dropWhile p = l
  | [], _ => rfl
  | c :: l, h => by
      rw [List.dropWhile_cons, h c (by simp)]
      simp

theorem trimChars_eq_self (l : List Char) (h : ∀ c ∈ l, goIsSpace c = false) :
    trimChars l = l := by
  unfold trimChars
  rw [dropWhile_eq_self_of_all_false l h,
      dropWhile_eq_self_of_all_false l.reverse
        (fun c hc => h c (List.mem_reverse.mp hc)),
      List.reverse_reverse]

theorem trim_get_line (key : List Char) (hne : key ≠ [])
    (h : ∀ c ∈ key, goIsSpace c = false) :
    trimChars ('g' :: 'e' :: 't' :: ' ' :: key) = 'g' :: 'e' :: 't' :: ' ' :: key := by
  obtain ⟨c0, rest, hrev⟩ : ∃ c0 rest, key.reverse = c0 :: rest := by
    cases hr : key.reverse with
    | nil => exact absurd (by simpa using hr) hne
    | cons a t => exact ⟨a, t, rfl⟩
  have hc0 : goIsSpace c0 = false := h c0 (by rw [← List.mem_reverse, hrev]; simp)
  have hfull : ('g' :: 'e' :: 't' :: ' ' :: key).reverse
      = c0 :: (rest ++ [' ', 't', 'e', 'g']) := by
    simp [hrev]
  unfold trimChars
  rw [List.dropWhile_cons]
  simp only [show (goIsSpace 'g') = false from rfl, Bool.false_eq_true, if_false]
  rw [hfull, List.dropWhile_cons, hc0]
  simp only [Bool.false_eq_true, if_false]
  rw [← hfull, List.reverse_reverse]

theorem splitOnce_get_line (key : List Char) (hne : key ≠ [])
    (h : ∀ c ∈ key, goIsSpace c = false) :
    splitOnce ('g' :: 'e' :: 't' :: ' ' :: key) = (['g', 'e', 't'], key) := by
  have htw : ('g' :: 'e' :: 't' :: ' ' :: key).takeWhile (fun c => !goSplitWs c)
      = ['g', 'e', 't'] := by
    simp +decide [List.takeWhile_cons, goSplitWs]
  have hdw : ('g' :: 'e' :: 't' :: ' ' :: key).dropWhile (fun c => !goSplitWs c)
      = ' ' :: key := by
    simp +decide [List.dropWhile_cons, goSplitWs]
  unfold splitOnce
  rw [trim_get_line key hne h]
  simp only [List.span_eq_take_drop, htw, hdw]
  congr 1
  exact dropWhile_eq_self_of_all_false key fun c hc => by
    have := h c hc
    revert this
    simp [goIsSpace]
    tauto

/-- C9 (amended): `Get` consults the local store first; for every key that
is **not** locally present and fails the 40-hex validation, it returns a
validation error, leaves the node unchanged, and emits no network traffic;
and the CLI rejects every such key (with no internal whitespace) with an
`ERR` line, without invoking the node. -/
theorem get_validates_when_not_cached :
    (∀ (env : GetEnv) (fuel : Nat) (n : Node) (keyHex : String),
       loadLocal n keyHex = none →
       (keyHex.length ≠ 40 ∨ hexDecode keyHex = none) →
       ((Get env fuel n keyHex).1 = GetResult.errInvalidLength ∨
        (Get env fuel n keyHex).1 = GetResult.errBadHex) ∧
       (Get env fuel n keyHex).2 = (n, [])) ∧
    (∀ (cenv : CliEnv) (key : String), key ≠ "" →
       (∀ c ∈ key.data, goIsSpace c = false) →
       (key.length ≠ 40 ∨ hexDecode key = none) →
       runLine cenv ("get " ++ key) =
         ⟨["ERR invalid key"], some "get: invalid key", []⟩) := by
  constructor
  · intro env fuel n keyHex hload hbad
    unfold Get
    rw [hload]
    by_cases hlen : keyHex.length = 40
    · have hdec : hexDecode keyHex = none := by
        rcases hbad with hbad | hbad
        · exact absurd hlen hbad
        · exact hbad
      rw [if_neg (by simp [hlen]), hdec]
      exact ⟨Or.inr rfl, rfl⟩
    · rw [if_pos (by simpa using hlen)]
      exact ⟨Or.inl rfl, rfl⟩
  · intro cenv key hne hsp hbad
    have hdata : ("get " ++ key).data = 'g' :: 'e' :: 't' :: ' ' :: key.data := by
      rw [String.data_append]
      rfl
    have hkdne : key.data ≠ [] := by
      intro hk
      exact hne (by cases key; simp_all)
    have hmkkey : String.mk key.data = key := by cases key; rfl
    unfold runLine
    rw [hdata, trim_get_line key.data hkdne hsp]
    rw [if_neg (by simp), splitOnce_get_line key.data hkdne hsp]
    simp only []
    rw [show String.mk (toLowerAscii ['g', 'e', 't']) = "get" from rfl]
    rw [if_neg (by decide), if_pos rfl]
    rw [trimChars_eq_self key.data hsp, hmkkey]
    rw [if_neg (by simpa using hne)]
    rw [if_pos ?_]
    rcases hbad with hbad | hbad
    · exact Or.inl hbad
    · exact Or.inr (by simp [isValidHex, hbad])

/-- C9 witness: `get("abc")` on a fresh node fails validation with no
traffic, and the CLI rejects the same key. -/
theorem get_validates_witness :
    (((Get silentEnv 1 emptyNode "abc").1 = GetResult.errInvalidLength ∨
      (Get silentEnv 1 emptyNode "abc").1 = GetResult.errBadHex) ∧
     (Get silentEnv 1 emptyNode "abc").2 = (emptyNode, [])) ∧
    runLine cliEnv0 ("get " ++ "abc") =
      ⟨["ERR invalid key"], some "get: invalid key", []⟩ :=
  ⟨get_validates_when_not_cached.1 silentEnv 1 emptyNode "abc" (by decide) (by decide),
   get_validates_when_not_cached.2 cliEnv0 "abc" (by decide) (by decide) (by decide)⟩

/-- C9 counterexample to the claim as stated: validation is *not* first.
On a node whose store holds an entry under the invalid key `"abc"`
(reachable via an inbound STORE, which `handleStore` does not validate),
`Get "abc"` returns the value instead of a validation error. -/
theorem get_returns_value_for_invalid_cached_key :
    (Get silentEnv 1 poisonedNode "abc").1 = GetResult.found [42] poisonedNode.me ∧
    (Get silentEnv 1 poisonedNode "abc").2.2 = ([] : List Sent) := by
  constructor
  · rfl
  · rfl

/-- C5: evaluation of `Get` at the failing input.  When the only queried
contact of a value-yielding lookup is the responder itself (here: a
two-node network where the single known peer holds the value), the
path-cache selection leaves `bestIdx = -1`; the guarded STORE is correctly
skipped, but the debug print then indexes `queried[bestIdx]` outside the
guard, which panics in Go (index out of range [-1]) instead of returning
`(value, responder)`.  The trace confirms no path-cache STORE was
dispatched before the panic. -/
theorem get_panics_when_sole_queried_is_responder :
    (Get valueEnv 4 onePeerNode key1).1 = GetResult.panicked ∧
    (Get valueEnv 4 onePeerNode key1).2.2 = [Sent.findValue peer1 key1] := by
  constructor
  · decide
  · decide

/-! ## Bucket-discipline lemmas (towards C6 and C7) -/

theorem optIDEquals_refl (a : Option KademliaID) (h : a.isSome) :
    optIDEquals a a = true := by
  obtain ⟨x, hx⟩ := Option.isSome_iff_exists.mp h
  subst hx
  simp [optIDEquals, idEquals_self]

theorem optIDEquals_symm (a b : Option KademliaID) :
    optIDEquals a b = optIDEquals b a := by
  cases a <;> cases b <;> simp [optIDEquals, idEquals_comm]

theorem ne_of_optIDEquals_false {a b : Option KademliaID}
    (h : optIDEquals a b = false) (ha : a.isSome) : a ≠ b := by
  intro hc
  subst hc
  rw [optIDEquals_refl a ha] at h
  exact Bool.noConfusion h

theorem getLast?_reverse_decomp {l : List Contact} {x : Contact}
    (h : l.getLast? = some x) :
    l.reverse = x :: l.dropLast.reverse ∧ l = l.dropLast ++ [x] := by
  have hne : l ≠ [] := by
    intro hc
    subst hc
    simp at h
  have hx : l.getLast hne = x := by
    rw [List.getLast?_eq_getLast l hne] at h
    exact (Option.some_inj.mp h)
  have hdec : l = l.dropLast ++ [x] := by
    conv_lhs => rw [← List.dropLast_append_getLast hne]
    rw [hx]
  constructor
  · conv_lhs => rw [hdec]
    simp
  · exact hdec

theorem removeFirstFromBack_getLast {l : List Contact} {lru : Contact}
    (h : l.getLast? = some lru) (hid : lru.id.isSome) :
    removeFirstFromBack lru.id l = l.dropLast := by
  obtain ⟨hrev, _⟩ := getLast?_reverse_decomp h
  unfold removeFirstFromBack
  rw [hrev, List.eraseP_cons_of_pos (by simpa using optIDEquals_refl lru.id hid),
      List.reverse_reverse]

theorem moveToFrontFromBack_getLast {l : List Contact} {lru : Contact}
    (h : l.getLast? = some lru) (hid : lru.id.isSome) :
    moveToFrontFromBack lru.id l = lru :: l.dropLast := by
  obtain ⟨hrev, _⟩ := getLast?_reverse_decomp h
  have hfind : (lru :: l.dropLast.reverse).find? (fun e => optIDEquals e.id lru.id)
      = some lru := by
    have hr := optIDEquals_refl lru.id hid
    simp [List.find?, hr]
  unfold moveToFrontFromBack
  rw [hrev, hfind]
  show lru :: removeFirstFromBack lru.id l = lru :: l.dropLast
  rw [removeFirstFromBack_getLast h hid]

theorem optIDEquals_eq_false_of_ne {a b : Option KademliaID}
    (h : a ≠ b) (ha : a.isSome) (hb : b.isSome) : optIDEquals a b = false := by
  obtain ⟨x, hx⟩ := Option.isSome_iff_exists.mp ha
  obtain ⟨y, hy⟩ := Option.isSome_iff_exists.mp hb
  subst hx; subst hy
  simp only [optIDEquals]
  cases hq : idEquals x y
  · rfl
  · exact absurd (congrArg some ((idEquals_eq_true_iff x y).mp hq)) h

theorem addReplacement_main (b : Bucket) (c : Contact) :
    (addReplacement b c).main = b.main := by
  unfold addReplacement
  split
  · rfl
  · split <;> rfl

theorem addReplacement_mem (b : Bucket) (c : Contact) (hc : c.id.isSome) :
    ∃ r ∈ (addReplacement b c).repl, optIDEquals r.id c.id = true := by
  unfold addReplacement
  by_cases h : b.repl.any (fun r => optIDEquals r.id c.id) = true
  · rw [if_pos h]
    obtain ⟨r, hr, hp⟩ := List.any_eq_true.mp h
    exact ⟨r, hr, by simpa using hp⟩
  · rw [if_neg h]
    split
    · exact ⟨c, by simp, optIDEquals_refl c.id hc⟩
    · exact ⟨c, by simp, optIDEquals_refl c.id hc⟩

theorem bucketAt_setBucketAt (rt : RoutingTable) (i : Nat) (b : Bucket)
    (h : i < rt.buckets.length) : bucketAt (setBucketAt rt i b) i = b := by
  unfold bucketAt setBucketAt
  simp [List.getD_eq_getElem?_getD, List.getElem?_set_self', h]

/-- C6: when a bucket is full and `AddContact` is called with a new contact
not already present: if the liveness probe of the captured LRU fails, the
LRU is removed and the new contact inserted at the front with the bucket
size staying K; if the probe succeeds, the LRU is moved to the front of the
main list, the new contact is absent from the main list, and the new
contact is present in the replacement list. -/
theorem full_bucket_eviction (ping : Contact → Bool) (rt : RoutingTable) (c : Contact)
    (cid : KademliaID) (lru : Contact)
    (hcid : c.id = some cid)
    (hnotme : ¬(rt.me.id.isSome = true ∧ idEquals (rt.me.id.getD []) cid = true))
    (hidx : getBucketIndex rt cid < rt.buckets.length)
    (hfull : (bucketAt rt (getBucketIndex rt cid)).main.length = bucketSize)
    (habsent : ∀ e ∈ (bucketAt rt (getBucketIndex rt cid)).main,
       optIDEquals e.id c.id = false)
    (hsome : ∀ e ∈ (bucketAt rt (getBucketIndex rt cid)).main, e.id.isSome)
    (hdist : (bucketAt rt (getBucketIndex rt cid)).main.Pairwise
       (fun x y => x.id ≠ y.id))
    (hlast : (bucketAt rt (getBucketIndex rt cid)).main.getLast? = some lru) :
    (ping lru = false →
       (bucketAt (AddContact ping rt c) (getBucketIndex rt cid)).main
         = c :: (bucketAt rt (getBucketIndex rt cid)).main.dropLast ∧
       (bucketAt (AddContact ping rt c) (getBucketIndex rt cid)).main.length
         = bucketSize ∧
       (∀ e ∈ (bucketAt (AddContact ping rt c) (getBucketIndex rt cid)).main,
          optIDEquals e.id lru.id = false) ∧
       c ∈ (bucketAt (AddContact ping rt c) (getBucketIndex rt cid)).main) ∧
    (ping lru = true →
       (bucketAt (AddContact ping rt c) (getBucketIndex rt cid)).main
         = lru :: (bucketAt rt (getBucketIndex rt cid)).main.dropLast ∧
       (bucketAt (AddContact ping rt c) (getBucketIndex rt cid)).main.length
         = bucketSize ∧
       (∀ e ∈ (bucketAt (AddContact ping rt c) (getBucketIndex rt cid)).main,
          optIDEquals e.id c.id = false) ∧
       ∃ r ∈ (bucketAt (AddContact ping rt c) (getBucketIndex rt cid)).repl,
          optIDEquals r.id c.id = true) := by
  have hlru_mem : lru ∈ (bucketAt rt (getBucketIndex rt cid)).main := by
    obtain ⟨_, hdec⟩ := getLast?_reverse_decomp hlast
    rw [hdec]
    simp
  have hlruid : lru.id.isSome := hsome lru hlru_mem
  have hany : (bucketAt rt (getBucketIndex rt cid)).main.any
      (fun e => optIDEquals e.id c.id) = false := by
    rw [List.any_eq_false]
    intro e he
    simp [habsent e he]
  have hany' := hany
  rw [hcid] at hany'
  have hlen : ¬ (bucketAt rt (getBucketIndex rt cid)).main.length < bucketSize := by
    omega
  obtain ⟨_, hdec⟩ := getLast?_reverse_decomp hlast
  have hdroplen : (bucketAt rt (getBucketIndex rt cid)).main.dropLast.length
      = bucketSize - 1 := by
    rw [List.length_dropLast, hfull]
  have hdropsub : ∀ e ∈ (bucketAt rt (getBucketIndex rt cid)).main.dropLast,
      e ∈ (bucketAt rt (getBucketIndex rt cid)).main :=
    fun e he => (List.dropLast_sublist _).mem he
  constructor
  · intro hping
    have heq : AddContact ping rt c =
        setBucketAt rt (getBucketIndex rt cid)
          { bucketAt rt (getBucketIndex rt cid) with
            main := c :: removeFirstFromBack lru.id
              (bucketAt rt (getBucketIndex rt cid)).main } := by
      unfold AddContact
      rw [hcid]
      simp only [if_neg hnotme, hany', Bool.false_eq_true, if_false, if_neg hlen,
        hlast, hping, Bool.not_false, if_true]
    rw [heq, bucketAt_setBucketAt _ _ _ hidx]
    rw [removeFirstFromBack_getLast hlast hlruid]
    refine ⟨rfl, ?_, ?_, by simp⟩
    · simp only [List.length_cons, hdroplen]
      decide
    · intro e he
      rcases List.mem_cons.mp he with he | he
      · rw [he, optIDEquals_symm]
        exact habsent lru hlru_mem
      · have hne : e.id ≠ lru.id := by
          have hpw : ∀ x ∈ (bucketAt rt (getBucketIndex rt cid)).main.dropLast,
              ∀ y ∈ [lru], x.id ≠ y.id := by
            have := hdist
            rw [hdec, List.pairwise_append] at this
            exact this.2.2
          exact hpw e he lru (by simp)
        exact optIDEquals_eq_false_of_ne hne (hsome e (hdropsub e he)) hlruid
  · intro hping
    have heq : AddContact ping rt c =
        setBucketAt rt (getBucketIndex rt cid)
          (addReplacement
            { bucketAt rt (getBucketIndex rt cid) with
              main := moveToFrontFromBack lru.id
                (bucketAt rt (getBucketIndex rt cid)).main } c) := by
      unfold AddContact
      rw [hcid]
      simp only [if_neg hnotme, hany', Bool.false_eq_true, if_false, if_neg hlen,
        hlast, hping, Bool.not_true, if_false]
    rw [heq, bucketAt_setBucketAt _ _ _ hidx]
    rw [addReplacement_main]
    rw [moveToFrontFromBack_getLast hlast hlruid]
    refine ⟨rfl, ?_, ?_, ?_⟩
    · simp only [List.length_cons, hdroplen]
      decide
    · intro e he
      rcases List.mem_cons.mp he with he | he
      · rw [he]
        exact habsent lru hlru_mem
      · exact habsent e (hdropsub e he)
    · exact addReplacement_mem _ c (by simp [hcid])

/-- C6 witness: a concrete full bucket (20 peers inserted in order, so
`mkPeer 0` is the LRU) probed with an always-dead liveness probe: the LRU
is evicted and the newcomer inserted at the front. -/
theorem full_bucket_eviction_witness :
    (bucketAt (AddContact (fun _ => false) fullTable newcomer)
        (getBucketIndex fullTable (128 :: List.replicate 18 0 ++ [200]))).main
      = newcomer :: (bucketAt fullTable
          (getBucketIndex fullTable (128 :: List.replicate 18 0 ++ [200]))).main.dropLast ∧
    (bucketAt (AddContact (fun _ => false) fullTable newcomer)
        (getBucketIndex fullTable (128 :: List.replicate 18 0 ++ [200]))).main.length
      = bucketSize ∧
    (∀ e ∈ (bucketAt (AddContact (fun _ => false) fullTable newcomer)
        (getBucketIndex fullTable (128 :: List.replicate 18 0 ++ [200]))).main,
       optIDEquals e.id (mkPeer 0).id = false) ∧
    newcomer ∈ (bucketAt (AddContact (fun _ => false) fullTable newcomer)
        (getBucketIndex fullTable (128 :: List.replicate 18 0 ++ [200]))).main :=
  (full_bucket_eviction (fun _ => false) fullTable newcomer
    (128 :: List.replicate 18 0 ++ [200]) (mkPeer 0)
    rfl (by decide) (by decide) (by decide) (by decide) (by decide) (by decide)
    (by decide)).1 rfl

/-! ## Invariant preservation (towards C7) -/

theorem find?_eraseP_perm {p : Contact → Bool} :
    ∀ (l : List Contact) (e : Contact), l.find? p = some e → (e :: l.eraseP p).Perm l
  | [], e, h => by simp [List.find?] at h
  | x :: xs, e, h => by
      by_cases hx : p x
      · rw [List.find?_cons_of_pos _ hx] at h
        injection h with h'
        subst h'
        rw [List.eraseP_cons_of_pos hx]
      · rw [List.find?_cons_of_neg _ hx] at h
        rw [List.eraseP_cons_of_neg hx]
        exact (List.Perm.swap x e _).trans ((find?_eraseP_perm xs e h).cons x)

theorem moveToFrontFromFront_perm (target : Option KademliaID) (l : List Contact) :
    (moveToFrontFromFront target l).Perm l := by
  unfold moveToFrontFromFront
  cases hf : l.find? (fun e => optIDEquals e.id target) with
  | none => exact List.Perm.refl l
  | some e => exact find?_eraseP_perm l e hf

theorem moveToFrontFromBack_perm (target : Option KademliaID) (l : List Contact) :
    (moveToFrontFromBack target l).Perm l := by
  unfold moveToFrontFromBack removeFirstFromBack
  cases hf : l.reverse.find? (fun e => optIDEquals e.id target) with
  | none => exact List.Perm.refl l
  | some e =>
      have h1 := find?_eraseP_perm l.reverse e hf
      have h2 : ((l.reverse.eraseP (fun e => optIDEquals e.id target)).reverse).Perm
          (l.reverse.eraseP (fun e => optIDEquals e.id target)) :=
        List.reverse_perm _
      exact ((h2.cons e).trans h1).trans (List.reverse_perm l)

theorem addReplacement_replCap (b : Bucket) (c : Contact) :
    (addReplacement b c).replCap = b.replCap := by
  unfold addReplacement
  split
  · rfl
  · split <;> rfl

theorem addReplacement_repl_le (b : Bucket) (c : Contact)
    (h : b.repl.length ≤ b.replCap) (hpos : 0 < b.replCap) :
    (addReplacement b c).repl.length ≤ b.replCap := by
  unfold addReplacement
  split
  · exact h
  · split
    · rename_i hge
      simp only [List.length_append, List.length_cons]
      have := List.length_take_le (b.replCap - 1) (b.repl.drop 1)
      simp only [List.length_nil]
      omega
    · rename_i hlt
      simp only [List.length_append, List.length_cons, List.length_nil]
      omega

theorem bucketInv_newBucket : BucketInv newBucket :=
  ⟨by simp [newBucket, bucketSize], by simp [newBucket], by simp [newBucket],
   by simp [newBucket], rfl⟩

theorem bucketInv_perm_main (b : Bucket) (m' : List Contact) (hperm : m'.Perm b.main)
    (h : BucketInv b) : BucketInv { b with main := m' } := by
  obtain ⟨h1, h2, h3, h4, h5⟩ := h
  refine ⟨?_, ?_, ?_, h4, h5⟩
  · rw [hperm.length_eq]
    exact h1
  · exact (hperm.pairwise_iff fun h => Ne.symm h).mpr h2
  · intro e he
    exact h3 e (hperm.mem_iff.mp he)

theorem bucketInv_addReplacement (b : Bucket) (c : Contact) (h : BucketInv b) :
    BucketInv (addReplacement b c) := by
  obtain ⟨h1, h2, h3, h4, h5⟩ := h
  have hmain := addReplacement_main b c
  have hcap := addReplacement_replCap b c
  refine ⟨?_, ?_, ?_, ?_, ?_⟩
  · rw [hmain]; exact h1
  · rw [hmain]; exact h2
  · rw [hmain]; exact h3
  · rw [hcap]; exact addReplacement_repl_le b c h4 (by omega)
  · rw [hcap]; exact h5

theorem bucketInv_bucketAt (rt : RoutingTable) (i : Nat)
    (h : ∀ b ∈ rt.buckets, BucketInv b) : BucketInv (bucketAt rt i) := by
  unfold bucketAt
  rw [List.getD_eq_getElem?_getD]
  cases hx : rt.buckets[i]? with
  | none => exact bucketInv_newBucket
  | some b => exact h b (List.getElem?_mem hx)

theorem setBucketAt_preserves_inv (rt : RoutingTable) (i : Nat) (nb : Bucket)
    (hinv : ∀ b ∈ rt.buckets, BucketInv b) (hnb : BucketInv nb) :
    ∀ b ∈ (setBucketAt rt i nb).buckets, BucketInv b := by
  intro b hb
  rcases List.mem_or_eq_of_mem_set hb with hb | hb
  · exact hinv b hb
  · rw [hb]; exact hnb

theorem addContact_preserves_inv (ping : Contact → Bool) (rt : RoutingTable)
    (c : Contact) (hinv : ∀ b ∈ rt.buckets, BucketInv b) :
    ∀ b ∈ (AddContact ping rt c).buckets, BucketInv b := by
  unfold AddContact
  cases hc : c.id with
  | none => exact hinv
  | some cid =>
    by_cases hme : rt.me.id.isSome = true ∧ idEquals (rt.me.id.getD []) cid = true
    · simp only [if_pos hme]
      exact hinv
    · simp only [if_neg hme]
      have hb0 : BucketInv (bucketAt rt (getBucketIndex rt cid)) :=
        bucketInv_bucketAt rt _ hinv
      obtain ⟨h1, h2, h3, h4, h5⟩ := hb0
      by_cases hany : (bucketAt rt (getBucketIndex rt cid)).main.any
          (fun e => optIDEquals e.id (some cid)) = true
      · simp only [if_pos hany]
        refine setBucketAt_preserves_inv rt _ _ hinv ?_
        exact bucketInv_perm_main _ _ (moveToFrontFromFront_perm _ _) ⟨h1, h2, h3, h4, h5⟩
      · simp only [if_neg hany]
        have habs : ∀ e ∈ (bucketAt rt (getBucketIndex rt cid)).main,
            optIDEquals e.id (some cid) = false := by
          intro e he
          have := (List.any_eq_false (p := fun e => optIDEquals e.id (some cid))).mp
            (by simpa using hany) e he
          simpa using this
        have hnec : ∀ e ∈ (bucketAt rt (getBucketIndex rt cid)).main,
            c.id ≠ e.id := by
          intro e he
          rw [hc]
          intro hcontra
          have := habs e he
          rw [← hcontra, optIDEquals_refl (some cid) rfl] at this
          exact Bool.noConfusion this
        by_cases hroom : (bucketAt rt (getBucketIndex rt cid)).main.length < bucketSize
        · simp only [if_pos hroom]
          refine setBucketAt_preserves_inv rt _ _ hinv ⟨?_, ?_, ?_, h4, h5⟩
          · simpa using hroom
          · exact List.Pairwise.cons (fun e he => hnec e he) h2
          · intro e he
            rcases List.mem_cons.mp he with he | he
            · rw [he, hc]; rfl
            · exact h3 e he
        · simp only [if_neg hroom]
          cases hlast : (bucketAt rt (getBucketIndex rt cid)).main.getLast? with
          | none => exact hinv
          | some lru =>
            have hlru_mem : lru ∈ (bucketAt rt (getBucketIndex rt cid)).main := by
              obtain ⟨_, hdec⟩ := getLast?_reverse_decomp hlast
              rw [hdec]
              simp
            have hlruid : lru.id.isSome := h3 lru hlru_mem
            have hmemlen : 1 ≤ (bucketAt rt (getBucketIndex rt cid)).main.length :=
              List.length_pos.mpr (List.ne_nil_of_mem hlru_mem)
            by_cases hping : ping lru = true
            · simp only [if_neg (show ¬(!ping lru) = true by simp [hping])]
              refine setBucketAt_preserves_inv rt _ _ hinv ?_
              exact bucketInv_addReplacement _ c
                (bucketInv_perm_main _ _ (moveToFrontFromBack_perm _ _)
                  ⟨h1, h2, h3, h4, h5⟩)
            · have hpf : ping lru = false := by
                revert hping
                cases ping lru <;> simp
              simp only [if_pos (show (!ping lru) = true by simp [hpf])]
              refine setBucketAt_preserves_inv rt _ _ hinv ⟨?_, ?_, ?_, h4, h5⟩
              · rw [removeFirstFromBack_getLast hlast hlruid]
                simp only [List.length_cons, List.length_dropLast]
                omega
              · rw [removeFirstFromBack_getLast hlast hlruid]
                refine List.Pairwise.cons ?_ (h2.sublist (List.dropLast_sublist _))
                intro e he
                exact hnec e ((List.dropLast_sublist _).mem he)
              · rw [removeFirstFromBack_getLast hlast hlruid]
                intro e he
                rcases List.mem_cons.mp he with he | he
                · rw [he, hc]; rfl
                · exact h3 e ((List.dropLast_sublist _).mem he)

theorem foldl_addContact_inv (ping : Contact → Bool) (me : Contact)
    (cs : List Contact) :
    ∀ b ∈ (cs.foldl (AddContact ping) (NewRoutingTable me)).buckets, BucketInv b := by
  have hstart : ∀ b ∈ (NewRoutingTable me).buckets, BucketInv b := by
    intro b hb
    rw [List.eq_of_mem_replicate hb]
    exact bucketInv_newBucket
  have main : ∀ (l : List Contact) (rt : RoutingTable),
      (∀ b ∈ rt.buckets, BucketInv b) →
      ∀ b ∈ (l.foldl (AddContact ping) rt).buckets, BucketInv b := by
    intro l
    induction l with
    | nil => intro rt h; exact h
    | cons x xs ih =>
        intro rt h
        exact ih (AddContact ping rt x) (addContact_preserves_inv ping rt x h)
  exact main cs (NewRoutingTable me) hstart

/-- C7: after every sequential sequence of `AddContact` calls starting from
a fresh routing table, every bucket's main list holds at most K = 20
contacts with pairwise-distinct ids, and its replacement list holds at most
R = 32 contacts. -/
theorem routing_table_capacity (me : Contact) (ping : Contact → Bool)
    (cs : List Contact) :
    ∀ b ∈ (cs.foldl (AddContact ping) (NewRoutingTable me)).buckets,
      b.main.length ≤ bucketSize ∧
      b.main.Pairwise (fun x y => x.id ≠ y.id) ∧
      b.repl.length ≤ 32 := by
  intro b hb
  obtain ⟨h1, h2, _, h4, h5⟩ := foldl_addContact_inv ping me cs b hb
  exact ⟨h1, h2, by rw [← h5]; exact h4⟩

/-- C7 witness: the invariant read off the concrete filled table. -/
theorem routing_table_capacity_witness :
    (bucketAt fullTable 0).main.length ≤ bucketSize ∧
    (bucketAt fullTable 0).main.Pairwise (fun x y => x.id ≠ y.id) ∧
    (bucketAt fullTable 0).repl.length ≤ 32 :=
  routing_table_capacity owner0 (fun _ => true) ((List.range bucketSize).map mkPeer)
    (bucketAt fullTable 0) (by decide)

/-! ## Distance arithmetic (towards C8) -/

theorem idToNat_lt (l : KademliaID) (h : ∀ b ∈ l, b < 256) :
    idToNat l < 256 ^ l.length := by
  induction l with
  | nil => simp [idToNat]
  | cons b rest ih =>
      simp only [idToNat, List.length_cons]
      have hb : b < 256 := h b (by simp)
      have ht : idToNat rest < 256 ^ rest.length := ih fun x hx => h x (by simp [hx])
      have hpow : 256 ^ (rest.length + 1) = 256 * 256 ^ rest.length := by
        rw [pow_succ]
        ring
      have h1 : b * 256 ^ rest.length + idToNat rest < (b + 1) * 256 ^ rest.length := by
        have : (b + 1) * 256 ^ rest.length = b * 256 ^ rest.length + 256 ^ rest.length := by
          ring
        omega
      have h2 : (b + 1) * 256 ^ rest.length ≤ 256 * 256 ^ rest.length :=
        Nat.mul_le_mul_right _ (by omega)
      omega

theorem idLess_toNat : ∀ (a b : KademliaID), a.length = b.length →
    (∀ x ∈ a, x < 256) → idLess a b = true → idToNat a < idToNat b
  | [], b, hlen, _, h => by simp [idLess] at h
  | x :: xs, [], hlen, _, _ => by simp at hlen
  | x :: xs, y :: ys, hlen, ha, h => by
      have hlen' : xs.length = ys.length := by simpa using hlen
      by_cases hxy : x < y
      · have hxs : idToNat xs < 256 ^ xs.length :=
          idToNat_lt xs fun z hz => ha z (by simp [hz])
        simp only [idToNat, hlen']
        have : (x + 1) * 256 ^ ys.length ≤ y * 256 ^ ys.length :=
          Nat.mul_le_mul_right _ (by omega)
        have hx1 : (x + 1) * 256 ^ ys.length = x * 256 ^ ys.length + 256 ^ ys.length := by
          ring
        rw [hlen'] at hxs
        omega
      · simp only [idLess, if_neg hxy] at h
        by_cases hyx : y < x
        · rw [if_pos hyx] at h
          exact Bool.noConfusion h
        · rw [if_neg hyx] at h
          have hxy' : x = y := by omega
          subst hxy'
          have := idLess_toNat xs ys hlen' (fun z hz => ha z (by simp [hz])) h
          simp only [idToNat, hlen']
          omega

theorem calcDistance_bytes_lt : ∀ (a t : KademliaID),
    (∀ x ∈ a, x < 256) → (∀ x ∈ t, x < 256) → ∀ b ∈ calcDistance a t, b < 256
  | [], _, _, _ => by simp [calcDistance]
  | _ :: _, [], _, _ => by simp [calcDistance]
  | a :: as, t :: ts, ha, ht => by
      intro b hb
      simp only [calcDistance, List.zipWith_cons_cons, List.mem_cons] at hb
      rcases hb with rfl | hb
      · exact Nat.xor_lt_two_pow (n := 8) (ha a (by simp)) (ht t (by simp))
      · exact calcDistance_bytes_lt as ts (fun z hz => ha z (by simp [hz]))
          (fun z hz => ht z (by simp [hz])) b hb

theorem calcDistance_length (a t : KademliaID) :
    (calcDistance a t).length = min a.length t.length := by
  simp [calcDistance]

theorem dist_lt_of_valid {a target : KademliaID} (ha : ValidId a) (ht : ValidId target) :
    idToNat (calcDistance a target) < 256 ^ 20 ∧ (calcDistance a target).length = 20 := by
  obtain ⟨hal, hab⟩ := ha
  obtain ⟨htl, htb⟩ := ht
  have hlen : (calcDistance a target).length = 20 := by
    rw [calcDistance_length, hal, htl]
    rfl
  refine ⟨?_, hlen⟩
  have := idToNat_lt (calcDistance a target) (calcDistance_bytes_lt a target hab htb)
  rw [hlen] at this
  exact this


theorem lookupRounds_fuel_sufficient (env : Nat → RoundObs) (target : KademliaID)
    (hv : ∀ r id, (env r).closest = some id → ValidId id) (ht : ValidId target) :
    ∀ (fuel round : Nat) (lastBest : Option KademliaID) (recorded : List KademliaID),
      (∀ id, lastBest = some id → ValidId id) →
      (match lastBest with
       | none => 256 ^ 20 + 1
       | some lb => idToNat (calcDistance lb target) + 1) ≤ fuel →
      lookupRounds env target fuel round lastBest recorded ≠ none := by
  intro fuel
  induction fuel with
  | zero =>
      intro round lastBest recorded _ hm
      cases lastBest <;> simp at hm
  | succ fuel ih =>
      intro round lastBest recorded hvb hm
      unfold lookupRounds
      by_cases hb : (env round).batchNonempty = true
      · rw [if_neg (by simp [hb])]
        cases hcl : (env round).closest with
        | none => simp
        | some best =>
            have hbest : ValidId best := hv round best hcl
            have hbestd := dist_lt_of_valid hbest ht
            cases lastBest with
            | none =>
                show lookupRounds env target fuel (round + 1) (some best)
                    (recorded ++ [best]) ≠ none
                simp only [] at hm
                refine ih (round + 1) (some best) (recorded ++ [best]) ?_ ?_
                · intro id hid
                  rw [← Option.some_inj.mp hid]
                  exact hbest
                · simp only []
                  omega
            | some lb =>
                show (if (!idLess (calcDistance best target) (calcDistance lb target))
                        = true then
                      some (recorded, StopReason.converged best)
                    else lookupRounds env target fuel (round + 1) (some best)
                      (recorded ++ [best])) ≠ none
                by_cases himp : idLess (calcDistance best target) (calcDistance lb target)
                    = true
                · rw [if_neg (by simp [himp])]
                  refine ih (round + 1) (some best) (recorded ++ [best]) ?_ ?_
                  · intro id hid
                    rw [← Option.some_inj.mp hid]
                    exact hbest
                  · have hlb : ValidId lb := hvb lb rfl
                    have hlbd := dist_lt_of_valid hlb ht
                    have hstep : idToNat (calcDistance best target)
                        < idToNat (calcDistance lb target) := by
                      refine idLess_toNat _ _ ?_ ?_ himp
                      · rw [hbestd.2, hlbd.2]
                      · exact calcDistance_bytes_lt best target hbest.2 ht.2
                    simp only [] at hm ⊢
                    omega
                · have hfalse : idLess (calcDistance best target) (calcDistance lb target)
                      = false := by
                    revert himp
                    cases idLess (calcDistance best target) (calcDistance lb target) <;>
                      simp
                  rw [if_pos (by simp [hfalse])]
                  simp
      · rw [if_pos (by simpa using hb)]
        simp

theorem lookupRounds_spec (env : Nat → RoundObs) (target : KademliaID) :
    ∀ (fuel round : Nat) (lastBest : Option KademliaID) (recorded : List KademliaID)
      (out : List KademliaID × StopReason),
      lookupRounds env target fuel round lastBest recorded = some out →
      ∃ tail,
        out.1 = recorded ++ tail ∧
        (∀ i (hi : i < tail.length),
           (env (round + i)).batchNonempty = true ∧
           (env (round + i)).closest = some (tail.get ⟨i, hi⟩)) ∧
        List.Chain' (fun a b => idLess (calcDistance b target) (calcDistance a target)
          = true) (lastBest.toList ++ tail) ∧
        (match out.2 with
         | .noCandidates => (env (round + tail.length)).batchNonempty = false
         | .noClosest =>
             (env (round + tail.length)).batchNonempty = true ∧
             (env (round + tail.length)).closest = none
         | .converged best =>
             (env (round + tail.length)).batchNonempty = true ∧
             (env (round + tail.length)).closest = some best ∧
             ∃ lb, (lastBest.toList ++ tail).getLast? = some lb ∧
               idLess (calcDistance best target) (calcDistance lb target) = false) := by
  intro fuel
  induction fuel with
  | zero =>
      intro round lastBest recorded out h
      simp [lookupRounds] at h
  | succ fuel ih =>
      intro round lastBest recorded out h
      unfold lookupRounds at h
      by_cases hb : (env round).batchNonempty = true
      · rw [if_neg (by simp [hb])] at h
        cases hcl : (env round).closest with
        | none =>
            rw [hcl] at h
            have h' : some (recorded, StopReason.noClosest) = some out := h
            obtain rfl := Option.some_inj.mp h'
            refine ⟨[], by simp, ?_, ?_, ?_⟩
            · intro i hi
              simp at hi
            · cases lastBest <;> simp
            · exact ⟨hb, hcl⟩
        | some best =>
            rw [hcl] at h
            cases lastBest with
            | none =>
                have h' : lookupRounds env target fuel (round + 1) (some best)
                    (recorded ++ [best]) = some out := h
                obtain ⟨tail', ht1, ht2, ht3, ht4⟩ := ih _ _ _ out h'
                refine ⟨best :: tail', by rw [ht1]; simp, ?_, ?_, ?_⟩
                · intro i hi
                  cases i with
                  | zero => exact ⟨hb, hcl⟩
                  | succ j =>
                      have hj : j < tail'.length := by simpa using hi
                      have h2 := ht2 j hj
                      have hr : round + (j + 1) = round + 1 + j := by omega
                      rw [hr]
                      exact ⟨h2.1, h2.2⟩
                · simpa using ht3
                · rw [show round + (best :: tail').length = round + 1 + tail'.length from
                    by simp [List.length_cons]; omega]
                  exact ht4
            | some lb =>
                have h' : (if (!idLess (calcDistance best target)
                      (calcDistance lb target)) = true then
                    some (recorded, StopReason.converged best)
                  else lookupRounds env target fuel (round + 1) (some best)
                    (recorded ++ [best])) = some out := h
                by_cases himp : idLess (calcDistance best target)
                    (calcDistance lb target) = true
                · rw [if_neg (by simp [himp])] at h'
                  obtain ⟨tail', ht1, ht2, ht3, ht4⟩ := ih _ _ _ out h'
                  refine ⟨best :: tail', by rw [ht1]; simp, ?_, ?_, ?_⟩
                  · intro i hi
                    cases i with
                    | zero => exact ⟨hb, hcl⟩
                    | succ j =>
                        have hj : j < tail'.length := by simpa using hi
                        have h2 := ht2 j hj
                        have hr : round + (j + 1) = round + 1 + j := by omega
                        rw [hr]
                        exact ⟨h2.1, h2.2⟩
                  · show List.Chain' _ (lb :: best :: tail')
                    rw [List.chain'_cons]
                    exact ⟨himp, by simpa using ht3⟩
                  · rw [show round + (best :: tail').length = round + 1 + tail'.length from
                      by simp [List.length_cons]; omega]
                    exact ht4
                · have hfalse : idLess (calcDistance best target)
                      (calcDistance lb target) = false := by
                    revert himp
                    cases idLess (calcDistance best target) (calcDistance lb target) <;>
                      simp
                  rw [if_pos (by simp [hfalse])] at h'
                  obtain rfl := Option.some_inj.mp h'
                  refine ⟨[], by simp, ?_, ?_, ?_⟩
                  · intro i hi
                    simp at hi
                  · simp
                  · exact ⟨hb, hcl, lb, rfl, hfalse⟩
      · have hbf : (env round).batchNonempty = false := by
          revert hb
          cases (env round).batchNonempty <;> simp
        rw [if_pos (by simp [hbf])] at h
        obtain rfl := Option.some_inj.mp h
        refine ⟨[], by simp, ?_, ?_, ?_⟩
        · intro i hi
          simp at hi
        · cases lastBest <;> simp
        · exact hbf

/-- C8: within one iterative lookup, the round loop always terminates (a
fuel of `256 ^ 20 + 2` rounds is never exhausted when the environment
supplies well-formed ids), the closest-contact distance recorded at the end
of each continuing round strictly decreases from round to round (in the
code's own `Less` order on XOR distances), and the loop exits exactly at
the first round whose observation fails to improve: every earlier round had
a nonempty batch and an improving closest contact, and the exit round either
has no unvisited addressable candidates, or no closest contact, or a closest
contact whose distance is not strictly smaller than the previous round's. -/
theorem lookup_rounds_convergence (env : Nat → RoundObs) (target : KademliaID)
    (hv : ∀ r id, (env r).closest = some id → ValidId id) (ht : ValidId target) :
    (∃ out, lookupRounds env target (256 ^ 20 + 2) 0 none [] = some out) ∧
    (∀ fuel out, lookupRounds env target fuel 0 none [] = some out →
       (∀ i (hi : i < out.1.length),
          (env i).batchNonempty = true ∧ (env i).closest = some (out.1.get ⟨i, hi⟩)) ∧
       List.Chain' (fun a b => idLess (calcDistance b target) (calcDistance a target)
         = true) out.1 ∧
       (match out.2 with
        | .noCandidates => (env out.1.length).batchNonempty = false
        | .noClosest =>
            (env out.1.length).batchNonempty = true ∧
            (env out.1.length).closest = none
        | .converged best =>
            (env out.1.length).batchNonempty = true ∧
            (env out.1.length).closest = some best ∧
            ∃ lb, out.1.getLast? = some lb ∧
              idLess (calcDistance best target) (calcDistance lb target) = false)) := by
  constructor
  · have := lookupRounds_fuel_sufficient env target hv ht (256 ^ 20 + 2) 0 none []
      (by intro id hid; exact Option.noConfusion hid) (by simp)
    cases hout : lookupRounds env target (256 ^ 20 + 2) 0 none [] with
    | none => exact absurd hout this
    | some out => exact ⟨out, rfl⟩
  · intro fuel out h
    obtain ⟨tail, ht1, ht2, ht3, ht4⟩ := lookupRounds_spec env target fuel 0 none [] out h
    have htail : out.1 = tail := by simpa using ht1
    subst htail
    refine ⟨?_, by simpa using ht3, ?_⟩
    · intro i hi
      have := ht2 i hi
      simpa using this
    · cases hout2 : out.2 with
      | noCandidates =>
          rw [hout2] at ht4
          simpa using ht4
      | noClosest =>
          rw [hout2] at ht4
          simpa using ht4
      | converged best =>
          rw [hout2] at ht4
          obtain ⟨e1, e2, lb, e3, e4⟩ := ht4
          exact ⟨by simpa using e1, by simpa using e2, lb, by simpa using e3, e4⟩

/-- C8 witness: the constant environment converges (here: at round 1). -/
theorem lookup_rounds_convergence_witness :
    ∃ out, lookupRounds constObsEnv (List.replicate 20 0) (256 ^ 20 + 2) 0 none []
      = some out :=
  (lookup_rounds_convergence constObsEnv (List.replicate 20 0)
    (by
      intro r id hid
      rw [← Option.some_inj.mp hid]
      decide)
    (by decide)).1

end Kademlia
